import Mathlib

/-!
# Verification of the karaboFAI history-buffer / pipeline data model

Shallow embedding of the core data structures of `karaboFAI`
(`pipeline/data_model.py`, `pipeline/scheduler.py`,
`data_processing/data_model.py`) together with proofs of the behavioural
properties stated in the specification.

Numeric values stored in the buffers are modelled as rationals (`ℚ`);
arrays are modelled as lists of rationals, with the array shape given by
the list length.  The C++ kernel `xt_moving_average` and the floating
point square root (`np.sqrt`) are not part of the Python sources: the
former is modelled from the spec, the latter is kept as an abstract
parameter `sq : ℚ → ℚ` (none of the proved statements depend on its
values).
-/

namespace KaraboFAI

/-! ## `PairData` (pipeline/data_model.py)

A `PairData` descriptor stores two parallel lists `_x`, `_y`; `__set__`
appends a pair and, when the length exceeds `MAX_LENGTH`, calls
`__delete__`, which removes the oldest entry of each list. `__get__`
returns a copy of both lists.  The auxiliary `_info` dictionary and the
lock are irrelevant to the functional behaviour and are omitted. -/

/-- State of a `PairData` history buffer: the `_x` and `_y` lists. -/
structure PairData where
  x : List ℚ
  y : List ℚ
  deriving Repr, DecidableEq

/-- `PairData.MAX_LENGTH = 3000` in the source. -/
def PairData.maxLength : ℕ := 3000

/-- `PairData.__delete__`: drop the oldest entry of each list. -/
def PairData.deleteOldest (st : PairData) : PairData :=
  { x := st.x.tail, y := st.y.tail }

/-- `PairData.__set__`: append the pair, then evict the oldest entry
when the length exceeds `MAX_LENGTH`. -/
def PairData.push (st : PairData) (p : ℚ × ℚ) : PairData :=
  let st' : PairData := { x := st.x ++ [p.1], y := st.y ++ [p.2] }
  if st'.x.length > PairData.maxLength then st'.deleteOldest else st'

/-- `PairData.__get__`: a snapshot returns (a copy of) both lists. -/
def PairData.snapshot (st : PairData) : List ℚ × List ℚ := (st.x, st.y)

/-- `PairData.clear`: empty both lists (metadata untouched). -/
def PairData.clear (_st : PairData) : PairData := { x := [], y := [] }

/-- The empty buffer produced by `PairData.__init__`. -/
def PairData.empty : PairData := { x := [], y := [] }

/-- Pushing a whole sequence of pairs, in order. -/
def PairData.pushAll (st : PairData) (ps : List (ℚ × ℚ)) : PairData :=
  ps.foldl PairData.push st

/-! ## `AccumulatedPairData` (pipeline/data_model.py)

Subclass of `PairData` performing online binning by `x`-resolution.
State: the `_x` list plus five parallel `_y_*` lists and the
`_resolution` attribute.  `np.sqrt` is kept abstract as a parameter
`sq : ℚ → ℚ`. -/

/-- State of an `AccumulatedPairData` buffer: `_resolution` and the six
parallel series `_x`, `_y_count`, `_y_avg`, `_y_min`, `_y_max`,
`_y_std`. -/
structure AccumulatedPairData where
  resolution : ℚ
  x : List ℚ
  yCount : List ℕ
  yAvg : List ℚ
  yMin : List ℚ
  yMax : List ℚ
  yStd : List ℚ
  deriving Repr, DecidableEq

namespace AccumulatedPairData

/-- `AccumulatedPairData.MAX_LENGTH = 600`. -/
def maxLength : ℕ := 600

/-- `AccumulatedPairData._min_count = 2`. -/
def minCount : ℕ := 2

/-- `AccumulatedPairData._epsilon = 1e-9`. -/
def epsilon : ℚ := 1 / 1000000000

/-- `AccumulatedPairData.__init__`: `'resolution must be positive!'` is
raised for `resolution ≤ 0`; otherwise every series starts empty. -/
def init (resolution : ℚ) : Except String AccumulatedPairData :=
  if resolution ≤ 0 then .error "'resolution must be positive!"
  else .ok {
    resolution := resolution, x := [], yCount := [],
    yAvg := [], yMin := [], yMax := [], yStd := [] }

/-- Append a fresh provisional bin (`count=1`, `min=max=y`, `std=0`). -/
def appendBin (st : AccumulatedPairData) (thisX thisY : ℚ) :
    AccumulatedPairData :=
  { st with
    x := st.x ++ [thisX], yCount := st.yCount ++ [1],
    yAvg := st.yAvg ++ [thisY], yMin := st.yMin ++ [thisY],
    yMax := st.yMax ++ [thisY], yStd := st.yStd ++ [0] }

/-- Remove the last (provisional) bin from every series. -/
def dropLastBin (st : AccumulatedPairData) : AccumulatedPairData :=
  { st with
    x := st.x.dropLast, yCount := st.yCount.dropLast,
    yAvg := st.yAvg.dropLast, yMin := st.yMin.dropLast,
    yMax := st.yMax.dropLast, yStd := st.yStd.dropLast }

/-- `AccumulatedPairData.__delete__`: remove the oldest bin from every
series. -/
def deleteOldest (st : AccumulatedPairData) : AccumulatedPairData :=
  { st with
    x := st.x.tail, yCount := st.yCount.tail,
    yAvg := st.yAvg.tail, yMin := st.yMin.tail,
    yMax := st.yMax.tail, yStd := st.yStd.tail }

/-- Welford merge of `(thisX, thisY)` into the trailing bin, exactly in
the update order of the source: count, then avg (with the new count),
then std (with the new avg), then min/max (with the new std and count),
then the bin's running x (with the new count). -/
def mergeLast (sq : ℚ → ℚ) (st : AccumulatedPairData)
    (thisX thisY : ℚ) : AccumulatedPairData :=
  let count : ℕ := st.yCount.getLast?.getD 0 + 1
  let avgPrev : ℚ := st.yAvg.getLast?.getD 0
  let avg : ℚ := avgPrev + (thisY - avgPrev) / (count : ℚ)
  let std : ℚ := st.yStd.getLast?.getD 0 + (thisY - avgPrev) * (thisY - avg)
  let lastX : ℚ := st.x.getLast?.getD 0
  { st with
    yCount := st.yCount.dropLast ++ [count],
    yAvg := st.yAvg.dropLast ++ [avg],
    yStd := st.yStd.dropLast ++ [std],
    yMin := st.yMin.dropLast ++ [avg - (1/2) * sq (std / (count : ℚ))],
    yMax := st.yMax.dropLast ++ [avg + (1/2) * sq (std / (count : ℚ))],
    x := st.x.dropLast ++ [lastX + (thisX - lastX) / (count : ℚ)] }

/-- `AccumulatedPairData.__set__`.  When the buffer is non-empty and
`|this_x − _x[-1]| − resolution < ε` the point is merged into the
trailing bin; otherwise a trailing bin with `count < _min_count` is
discarded and a fresh bin is appended; finally the oldest bin is
evicted when the length exceeds `MAX_LENGTH`. -/
def push (sq : ℚ → ℚ) (st : AccumulatedPairData)
    (thisX thisY : ℚ) : AccumulatedPairData :=
  let st' :=
    match st.x.getLast? with
    | some lastX =>
      if |thisX - lastX| - st.resolution < epsilon then
        st.mergeLast sq thisX thisY
      else
        let base := if st.yCount.getLast?.getD 0 < minCount
                    then st.dropLastBin else st
        base.appendBin thisX thisY
    | none => st.appendBin thisX thisY
  if st'.x.length > maxLength then st'.deleteOldest else st'

/-- The value returned by `AccumulatedPairData.__get__`: `x` and the
`DataStat` fields `count`, `avg`, `min`, `max`. -/
structure Snapshot where
  x : List ℚ
  count : List ℕ
  avg : List ℚ
  min : List ℚ
  max : List ℚ
  deriving Repr, DecidableEq

/-- `AccumulatedPairData.__get__`: withhold the trailing bin when its
count is below `_min_count`. -/
def get (st : AccumulatedPairData) : Snapshot :=
  if st.yCount ≠ [] ∧ st.yCount.getLast?.getD 0 < minCount then
    { x := st.x.dropLast, count := st.yCount.dropLast,
      avg := st.yAvg.dropLast, min := st.yMin.dropLast,
      max := st.yMax.dropLast }
  else
    { x := st.x, count := st.yCount, avg := st.yAvg,
      min := st.yMin, max := st.yMax }

/-- `AccumulatedPairData.clear`: empty every series (the resolution,
like `_info`, is kept). -/
def clear (st : AccumulatedPairData) : AccumulatedPairData :=
  { st with
    x := [], yCount := [], yAvg := [], yMin := [], yMax := [],
    yStd := [] }

end AccumulatedPairData

/-! ## `Scheduler._process` (pipeline/scheduler.py)

The per-train control flow of `Scheduler._process`.  The external steps
(image assembly, `ProcessedData` construction, data aggregation, and
each task's `run_once`) are abstract computations that either return a
value or raise one of the exception kinds below; `Exc.other` stands for
any exception that is none of the three named pipeline exceptions. -/

/-- Exception kinds distinguished by `Scheduler._process`. -/
inductive Exc where
  | assembling
  | aggregating
  | processing
  | other
  deriving Repr, DecidableEq

/-- Value of `Scheduler._process`: `.error e` when the exception `e` is
re-raised, `.ok none` when the train is skipped (nothing published),
`.ok (some p)` when the processed train `p` is returned for
publication. -/
abbrev ProcessResult (β : Type) := Except Exc (Option β)

/-- The task loop of `Scheduler._process`: each task runs on the
processed train; a `ProcessingError` is logged and the remaining tasks
still run (on the train as it stands); any other exception is
re-raised. -/
def runTasks {β : Type} (tasks : List (β → Except Exc β)) (p : β) :
    Except Exc β :=
  match tasks with
  | [] => .ok p
  | t :: ts =>
    match t p with
    | .ok p' => runTasks ts p'
    | .error .processing => runTasks ts p
    | .error e => .error e

/-- `Scheduler._process`: assemble, construct `ProcessedData`,
aggregate, then run the task chain. -/
def processTrain {α β : Type} (assemble : Except Exc α)
    (construct : α → Except Exc β) (aggregate : β → Except Exc β)
    (tasks : List (β → Except Exc β)) : ProcessResult β :=
  match assemble with
  | .error .assembling => .ok none
  | .error e => .error e
  | .ok a =>
    match construct a with
    | .error e => .error e
    | .ok p =>
      match aggregate p with
      | .error .aggregating => (runTasks tasks p).map some
      | .error e => .error e
      | .ok p' => (runTasks tasks p').map some

/-! ## `MovingAverageArray` (pipeline/data_model.py)

The raw-image accumulator.  Arrays are lists of rationals; the array
shape is the list length.  The C++ kernel is not in the Python sources,
so it is modelled from the spec. -/

/-- Modelled from the spec: the C++ kernel `xt_moving_average
(avg, new, count)` (from `karaboFAI.cpp`, not part of the Python
sources) computes the elementwise decaying running mean
`avg + (new - avg)/count`. -/
def xtMovingAverage (avg new : List ℚ) (count : ℕ) : List ℚ :=
  List.zipWith (fun a n => a + (n - a) / (count : ℚ)) avg new

/-- State of a `MovingAverageArray` descriptor: `_data`, `_window`,
`_count`. -/
structure MovingAverageArray where
  data : Option (List ℚ)
  window : ℕ
  count : ℕ
  deriving Repr, DecidableEq

namespace MovingAverageArray

/-- `MovingAverageArray.__init__`: no data, `window=1`, `count=0`. -/
def initial : MovingAverageArray := { data := none, window := 1, count := 0 }

/-- `MovingAverageArray.__set__`: update the moving average when data
exists, `window > 1`, `count ≤ window` and the shape matches; otherwise
reset to the new image with `count = 1`. -/
def set (st : MovingAverageArray) (new : List ℚ) : MovingAverageArray :=
  match st.data with
  | some d =>
    if 1 < st.window ∧ st.count ≤ st.window ∧ new.length = d.length then
      if st.count < st.window then
        { st with
          count := st.count + 1,
          data := some (xtMovingAverage d new (st.count + 1)) }
      else  -- st.count = st.window: the count stays put
        { st with data := some (xtMovingAverage d new st.count) }
    else
      { st with data := some new, count := 1 }
  | none => { st with data := some new, count := 1 }

/-- The `window` property setter: a non-positive integer is rejected;
otherwise only `_window` is assigned (data and count untouched). -/
def setWindow (st : MovingAverageArray) (v : ℤ) : Except String MovingAverageArray :=
  if v ≤ 0 then .error "Input must be integer"
  else .ok { st with window := v.toNat }

end MovingAverageArray

/-! ## `ImageData.masked_mean_image` (data_processing/data_model.py)

Pixels of the mean image are IEEE values: NaN, ±∞, or a finite number
(modelled as a rational).  `np.clip(x, l, u)` is
`minimum(maximum(x, l), u)`. -/

/-- A floating-point pixel value. -/
inductive PixelVal where
  | nan
  | negInf
  | posInf
  | finite (q : ℚ)
  deriving Repr, DecidableEq

namespace PixelVal

/-- `np.maximum` on non-NaN values (`negInf < finite _ < posInf`). -/
def pmax : PixelVal → PixelVal → PixelVal
  | .negInf, b => b
  | a, .negInf => a
  | .posInf, _ => .posInf
  | _, .posInf => .posInf
  | .finite q, .finite r => .finite (max q r)
  | .nan, _ => .nan
  | _, .nan => .nan

/-- `np.minimum` on non-NaN values. -/
def pmin : PixelVal → PixelVal → PixelVal
  | .posInf, b => b
  | a, .posInf => a
  | .negInf, _ => .negInf
  | _, .negInf => .negInf
  | .finite q, .finite r => .finite (min q r)
  | .nan, _ => .nan
  | _, .nan => .nan

/-- The usual order on non-NaN IEEE values. -/
def ple : PixelVal → PixelVal → Prop
  | .nan, _ => False
  | _, .nan => False
  | .negInf, _ => True
  | _, .posInf => True
  | .posInf, b => b = .posInf
  | a, .negInf => a = .negInf
  | .finite q, .finite r => q ≤ r

instance (a b : PixelVal) : Decidable (ple a b) := by
  cases a <;> cases b <;> simp only [ple] <;> infer_instance

/-- `np.clip(x, lower, upper) = minimum(maximum(x, lower), upper)`. -/
def clip (p lower upper : PixelVal) : PixelVal := pmin (pmax p lower) upper

end PixelVal

/-- `ImageData.masked_mean_image`: copy the mean image, replace every
NaN pixel by `-inf`, then clip the whole image to the threshold-mask
range `(lower, upper)`. -/
def maskedMeanImage (mean : List (List PixelVal))
    (lower upper : PixelVal) : List (List PixelVal) :=
  mean.map (fun row => row.map (fun p =>
    PixelVal.clip (if p = .nan then .negInf else p) lower upper))

/-! ## `PumpProbeData.MovingAverage` (pipeline/data_model.py)

Moving average of the emitted (x, on, off) triple; `on`/`off` are
arrays (lists of rationals, shape = length), `x` an optional abscissa
array left abstract as an optional rational list. -/

/-- State of `PumpProbeData.MovingAverage`: `_x`, `_on_ma`, `_off_ma`,
`_ma_window`, `_ma_count`. -/
structure PumpProbeMovingAverage where
  x : Option (List ℚ)
  onMa : Option (List ℚ)
  offMa : Option (List ℚ)
  maWindow : ℕ
  maCount : ℕ
  deriving Repr, DecidableEq

namespace PumpProbeMovingAverage

/-- `MovingAverage.__init__`: everything empty, `window=1`, `count=0`. -/
def initial : PumpProbeMovingAverage :=
  { x := none, onMa := none, offMa := none, maWindow := 1, maCount := 0 }

/-- `MovingAverage.__set__`: on a shape change of `on` against the
accumulated on-average, discard the accumulated averages and zero the
count; then either perform the decaying-average update (if `window > 1`
and `count > 0`) or restart from the new pair. -/
def set (st : PumpProbeMovingAverage) (x : Option (List ℚ))
    (onData offData : List ℚ) : PumpProbeMovingAverage :=
  let st1 :=
    match st.onMa with
    | some d =>
      if onData.length ≠ d.length then
        { st with maCount := 0, onMa := none, offMa := none }
      else st
    | none => st
  let st2 := { st1 with x := x }
  if 1 < st2.maWindow ∧ 0 < st2.maCount then
    let denom : ℕ := if st2.maCount < st2.maWindow then st2.maCount + 1
                     else st2.maWindow
    { st2 with
      maCount := if st2.maCount < st2.maWindow then st2.maCount + 1
                 else st2.maCount,
      onMa := st2.onMa.map (fun d => xtMovingAverage d onData denom),
      offMa := st2.offMa.map (fun d => xtMovingAverage d offData denom) }
  else
    { st2 with
      onMa := some onData, offMa := some offData,
      maCount := if 1 < st2.maWindow then 1 else st2.maCount }

end PumpProbeMovingAverage

/-! ## `DataManagerMixin.add_correlation` (pipeline/data_model.py) -/

/-- The class attribute installed on `CorrelationData` by
`add_correlation`: either a plain `PairData` or an
`AccumulatedPairData` (carrying its freshly constructed state). -/
inductive CorrelationBuffer where
  | pair (deviceId ppt : String)
  | accumulated (deviceId ppt : String) (st : AccumulatedPairData)
  deriving Repr, DecidableEq

/-- Effect of one `add_correlation` call. -/
inductive CorrelationEffect where
  | installed (b : CorrelationBuffer)
  | removed
  deriving Repr, DecidableEq

/-- `DataManagerMixin.add_correlation(idx, device_id, ppt, resolution)`:
an index `≤ 0` is rejected; with non-empty `device_id` and `ppt`, a
non-zero resolution installs an `AccumulatedPairData` (whose
constructor validates the resolution) and a zero resolution installs a
plain `PairData`; otherwise the correlation is removed. -/
def addCorrelation (idx : ℤ) (deviceId ppt : String) (resolution : ℚ) :
    Except String CorrelationEffect :=
  if idx ≤ 0 then .error "Correlation index must start from 1!"
  else if deviceId ≠ "" ∧ ppt ≠ "" then
    if resolution ≠ 0 then
      (AccumulatedPairData.init resolution).map
        (fun st => .installed (.accumulated deviceId ppt st))
    else
      .ok (.installed (.pair deviceId ppt))
  else
    .ok .removed

/-- A concrete pump-probe moving-average state: window 5, three
accumulated pairs of shape `[·]`. -/
def ppShapeExample : PumpProbeMovingAverage :=
  { x := none, onMa := some [0], offMa := some [0], maWindow := 5,
    maCount := 3 }

/-- The fresh accumulated buffer with resolution 5 (as produced by
`AccumulatedPairData.init 5`). -/
def accExample5 : AccumulatedPairData :=
  { resolution := 5, x := [], yCount := [], yAvg := [], yMin := [],
    yMax := [], yStd := [] }

/-- A concrete one-bin accumulated buffer: resolution 2, bin at x=10
with count 1, avg 4, std 0. -/
def accOneBin : AccumulatedPairData :=
  { resolution := 2, x := [10], yCount := [1], yAvg := [4],
    yMin := [4], yMax := [4], yStd := [0] }

/-- The internal invariant of the accumulated buffer (C10): the six
series have equal lengths, the length is bounded by `MAX_LENGTH`, and
every bin but the last is committed (`count ≥ min_count`). -/
def AccInv (st : AccumulatedPairData) : Prop :=
  st.yCount.length = st.x.length ∧ st.yAvg.length = st.x.length
  ∧ st.yMin.length = st.x.length ∧ st.yMax.length = st.x.length
  ∧ st.yStd.length = st.x.length
  ∧ st.x.length ≤ AccumulatedPairData.maxLength
  ∧ ∀ c ∈ st.yCount.dropLast, AccumulatedPairData.minCount ≤ c

/-! ## Theorems -/

/-! Auxiliary facts about `PairData.push`. -/

lemma PairData.push_x_of_lt (st : PairData) (p : ℚ × ℚ)
    (h : st.x.length < PairData.maxLength) :
    (st.push p).x = st.x ++ [p.1] := by
  simp only [PairData.push]
  rw [if_neg]
  simp only [List.length_append, List.length_cons, List.length_nil]
  omega

lemma PairData.push_y_of_lt (st : PairData) (p : ℚ × ℚ)
    (h : st.x.length < PairData.maxLength) :
    (st.push p).y = st.y ++ [p.2] := by
  simp only [PairData.push]
  rw [if_neg]
  simp only [List.length_append, List.length_cons, List.length_nil]
  omega

lemma PairData.push_of_ge (st : PairData) (p : ℚ × ℚ)
    (h : PairData.maxLength ≤ st.x.length) :
    (st.push p) = { x := (st.x ++ [p.1]).tail, y := (st.y ++ [p.2]).tail } := by
  simp only [PairData.push, PairData.deleteOldest]
  rw [if_pos]
  simp only [List.length_append, List.length_cons, List.length_nil]
  omega

/-- After `pushAll` from empty, the stored lists are the suffix of the
pushed sequence obtained by dropping everything but the most recent
`min n maxLength` entries; in particular the length is
`min n maxLength`. -/
lemma PairData.pushAll_spec (ps : List (ℚ × ℚ)) :
    (PairData.empty.pushAll ps).x
        = (ps.map Prod.fst).drop (ps.length - PairData.maxLength)
      ∧ (PairData.empty.pushAll ps).y
        = (ps.map Prod.snd).drop (ps.length - PairData.maxLength) := by
  induction ps using List.reverseRecOn with
  | nil => simp [PairData.pushAll, PairData.empty]
  | append_singleton ps p ih =>
    obtain ⟨ihx, ihy⟩ := ih
    have hlen : (PairData.empty.pushAll ps).x.length
        = ps.length - (ps.length - PairData.maxLength) := by
      rw [ihx, List.length_drop, List.length_map]
    have hstep : PairData.empty.pushAll (ps ++ [p])
        = (PairData.empty.pushAll ps).push p := by
      simp [PairData.pushAll]
    by_cases hc : ps.length < PairData.maxLength
    · have h0 : ps.length - PairData.maxLength = 0 := by omega
      have h0' : (ps.length + 1) - PairData.maxLength = 0 := by omega
      rw [hstep]
      constructor
      · rw [PairData.push_x_of_lt _ _ (by omega), ihx]
        simp [h0, h0']
      · rw [PairData.push_y_of_lt _ _ (by omega), ihy]
        simp [h0, h0']
    · have hge : PairData.maxLength ≤ ps.length := by omega
      have hM : 0 < PairData.maxLength := by decide
      have hxlen : (PairData.empty.pushAll ps).x.length = PairData.maxLength := by
        rw [hlen]; omega
      have hk1 : (ps ++ [p]).length - PairData.maxLength
          = (ps.length - PairData.maxLength) + 1 := by
        rw [List.length_append, List.length_singleton]; omega
      have hxne : (PairData.empty.pushAll ps).x ≠ [] := by
        intro hnil
        rw [hnil] at hxlen
        simp only [List.length_nil] at hxlen
        omega
      have hyne : (PairData.empty.pushAll ps).y ≠ [] := by
        intro hnil
        have hylen : (PairData.empty.pushAll ps).y.length = PairData.maxLength := by
          rw [ihy, List.length_drop, List.length_map]; omega
        rw [hnil] at hylen
        simp only [List.length_nil] at hylen
        omega
      rw [hstep, PairData.push_of_ge _ _ (by rw [hxlen])]
      constructor
      · show ((PairData.empty.pushAll ps).x ++ [p.1]).tail = _
        rw [List.tail_append_singleton_of_ne_nil hxne, ihx, List.tail_drop,
          List.map_append, hk1,
          List.drop_append_of_le_length (by rw [List.length_map]; omega)]
        simp
      · show ((PairData.empty.pushAll ps).y ++ [p.2]).tail = _
        rw [List.tail_append_singleton_of_ne_nil hyne, ihy, List.tail_drop,
          List.map_append, hk1,
          List.drop_append_of_le_length (by rw [List.length_map]; omega)]
        simp


/-- C1: History Buffer (`PairData`) FIFO bound.  After any sequence of
`n` pushes into an empty buffer, a snapshot returns exactly the most
recent `min n MAX_LENGTH` pairs in arrival order (the pushed sequence
with all but the last `MAX_LENGTH` entries dropped), and a push that
makes the length exceed `MAX_LENGTH` evicts exactly the single oldest
entry. -/
theorem pairData_fifo_bound :
    (∀ ps : List (ℚ × ℚ),
      (PairData.empty.pushAll ps).snapshot
        = ((ps.map Prod.fst).drop (ps.length - PairData.maxLength),
           (ps.map Prod.snd).drop (ps.length - PairData.maxLength))
      ∧ (PairData.empty.pushAll ps).x.length
          = min ps.length PairData.maxLength)
    ∧ ∀ (st : PairData) (p : ℚ × ℚ),
      st.push p = if PairData.maxLength ≤ st.x.length
        then { x := (st.x ++ [p.1]).tail, y := (st.y ++ [p.2]).tail }
        else { x := st.x ++ [p.1], y := st.y ++ [p.2] } := by
  constructor
  · intro ps
    obtain ⟨hx, hy⟩ := PairData.pushAll_spec ps
    refine ⟨?_, ?_⟩
    · simp [PairData.snapshot, hx, hy]
    · rw [hx, List.length_drop, List.length_map]
      omega
  · intro st p
    by_cases h : PairData.maxLength ≤ st.x.length
    · rw [if_pos h]
      exact st.push_of_ge p h
    · rw [if_neg h]
      have hx := st.push_x_of_lt p (by omega)
      have hy := st.push_y_of_lt p (by omega)
      cases hst : st.push p
      simp_all

/-- C3: Scheduler per-train error contract.  (i) An `AssemblingError`
during assembly skips the train (nothing is published); (ii) any other
exception from assembly is re-raised; (iii) an exception while
constructing the processed-train object is re-raised (the train is not
published); (iv) an `AggregatingError` during aggregation leaves the
train to be processed by the task chain, and if the chain succeeds the
train is published; (v) any other aggregation exception is re-raised;
(vi) a task raising `ProcessingError` is skipped and the remaining
tasks still run; if they succeed the train is still published;
(vii) any other task exception is re-raised. -/
theorem scheduler_error_contract {α β : Type} :
    (∀ (construct : α → Except Exc β) (aggregate : β → Except Exc β)
        (tasks : List (β → Except Exc β)),
      processTrain (.error .assembling) construct aggregate tasks = .ok none)
  ∧ (∀ (e : Exc) (construct : α → Except Exc β)
        (aggregate : β → Except Exc β) (tasks : List (β → Except Exc β)),
      e ≠ .assembling →
      processTrain (.error e) construct aggregate tasks = .error e)
  ∧ (∀ (a : α) (e : Exc) (aggregate : β → Except Exc β)
        (tasks : List (β → Except Exc β)),
      processTrain (.ok a) (fun _ => .error e) aggregate tasks = .error e)
  ∧ (∀ (a : α) (construct : α → Except Exc β)
        (aggregate : β → Except Exc β) (tasks : List (β → Except Exc β))
        (p : β),
      construct a = .ok p → aggregate p = .error .aggregating →
      processTrain (.ok a) construct aggregate tasks
        = (runTasks tasks p).map some)
  ∧ (∀ (a : α) (construct : α → Except Exc β)
        (aggregate : β → Except Exc β) (tasks : List (β → Except Exc β))
        (p : β) (e : Exc),
      construct a = .ok p → aggregate p = .error e → e ≠ .aggregating →
      processTrain (.ok a) construct aggregate tasks = .error e)
  ∧ (∀ (t : β → Except Exc β) (ts : List (β → Except Exc β)) (p : β),
      t p = .error .processing → runTasks (t :: ts) p = runTasks ts p)
  ∧ (∀ (t : β → Except Exc β) (ts : List (β → Except Exc β)) (p : β)
        (e : Exc),
      t p = .error e → e ≠ .processing → runTasks (t :: ts) p = .error e)
  ∧ (∀ (a : α) (construct : α → Except Exc β)
        (aggregate : β → Except Exc β) (tasks : List (β → Except Exc β))
        (p p' q : β),
      construct a = .ok p → aggregate p = .ok p' →
      runTasks tasks p' = .ok q →
      processTrain (.ok a) construct aggregate tasks = .ok (some q)) := by
  refine ⟨?_, ?_, ?_, ?_, ?_, ?_, ?_, ?_⟩
  · intro construct aggregate tasks
    rfl
  · intro e construct aggregate tasks he
    cases e <;> simp [processTrain] <;> exact absurd rfl he
  · intro a e aggregate tasks
    cases e <;> rfl
  · intro a construct aggregate tasks p hc ha
    simp [processTrain, hc, ha]
  · intro a construct aggregate tasks p e hc ha he
    cases e <;> simp [processTrain, hc, ha] <;> exact absurd rfl he
  · intro t ts p ht
    simp [runTasks, ht]
  · intro t ts p e ht he
    cases e <;> simp [runTasks, ht] <;> exact absurd rfl he
  · intro a construct aggregate tasks p p' q hc ha hr
    simp [processTrain, hc, ha, hr, Except.map]

/-- Witness for C3 at concrete inputs (`α = β = ℕ`, two-task chains):
every hypothesis of `scheduler_error_contract` is discharged on
explicit data. -/
theorem scheduler_error_contract_witness :
    (processTrain (α := ℕ) (β := ℕ) (.error .assembling)
        (fun a => .ok a) (fun p => .ok p) [] = .ok none)
  ∧ (processTrain (α := ℕ) (β := ℕ) (.error .other)
        (fun a => .ok a) (fun p => .ok p) [] = .error .other)
  ∧ (processTrain (α := ℕ) (β := ℕ) (.ok 0)
        (fun _ => .error .other) (fun p => .ok p) [] = .error .other)
  ∧ (processTrain (α := ℕ) (β := ℕ) (.ok 0)
        (fun a => .ok (a + 1)) (fun _ => .error .aggregating)
        [fun p => .ok (p + 2)]
      = (runTasks [fun p => .ok (p + 2)] 1).map some)
  ∧ (processTrain (α := ℕ) (β := ℕ) (.ok 0)
        (fun a => .ok (a + 1)) (fun _ => .error .other) [] = .error .other)
  ∧ (runTasks [fun _ => .error .processing, fun p => .ok (p + 2)] 5
      = runTasks [fun p => .ok (p + 2)] 5)
  ∧ (runTasks ([fun _ => .error .other] : List (ℕ → Except Exc ℕ)) 5
      = .error .other)
  ∧ (processTrain (α := ℕ) (β := ℕ) (.ok 0)
        (fun a => .ok (a + 1)) (fun p => .ok (p + 1))
        [fun p => .ok (p + 2)] = .ok (some 4)) := by
  obtain ⟨h1, h2, h3, h4, h5, h6, h7, h8⟩ :=
    scheduler_error_contract (α := ℕ) (β := ℕ)
  exact ⟨h1 _ _ _, h2 .other _ _ _ (by decide), h3 0 .other _ _,
    h4 0 _ _ _ 1 rfl rfl, h5 0 _ _ _ 1 .other rfl rfl (by decide),
    h6 _ _ 5 rfl, h7 _ [] 5 .other rfl (by decide),
    h8 0 _ _ _ 1 2 4 rfl rfl rfl⟩

/-- C4: Raw Accumulator update rule.  When a current average exists,
the shape matches, the window `W > 1` and the count `C ≤ W`, the
average becomes `avg + (new − avg)/min(C+1, W)` (elementwise) and the
count becomes `min(C+1, W)`; when no average exists, or the stated
condition fails (in particular `W = 1` or a shape mismatch), the
average resets to the new image with count 1.  With `window=5`,
feeding `[1,1,1]` then `[3,3,3]` gives average `[2,2,2]` with count 2,
and feeding an array of a different shape then resets to that array
with count 1. -/
theorem movingAverageArray_update :
    (∀ (st : MovingAverageArray) (d new : List ℚ),
      st.data = some d → 1 < st.window → st.count ≤ st.window →
      new.length = d.length →
      (st.set new).data
          = some (List.zipWith
              (fun a n => a + (n - a) / ((min (st.count + 1) st.window : ℕ) : ℚ))
              d new)
        ∧ (st.set new).count = min (st.count + 1) st.window
        ∧ (st.set new).window = st.window)
  ∧ (∀ (st : MovingAverageArray) (new : List ℚ),
      st.data = none →
      (st.set new).data = some new ∧ (st.set new).count = 1)
  ∧ (∀ (st : MovingAverageArray) (d new : List ℚ),
      st.data = some d →
      ¬(1 < st.window ∧ st.count ≤ st.window ∧ new.length = d.length) →
      (st.set new).data = some new ∧ (st.set new).count = 1)
  ∧ (((({ MovingAverageArray.initial with
          window := 5 } : MovingAverageArray).set [1, 1, 1]).set
            [3, 3, 3]).data = some [2, 2, 2]
      ∧ ((({ MovingAverageArray.initial with
          window := 5 } : MovingAverageArray).set [1, 1, 1]).set
            [3, 3, 3]).count = 2
      ∧ ((((({ MovingAverageArray.initial with
          window := 5 } : MovingAverageArray).set [1, 1, 1]).set
            [3, 3, 3]).set [7, 7]).data = some [7, 7]
      ∧ (((({ MovingAverageArray.initial with
          window := 5 } : MovingAverageArray).set [1, 1, 1]).set
            [3, 3, 3]).set [7, 7]).count = 1)) := by
  refine ⟨?_, ?_, ?_, ?_⟩
  · intro st d new hd hw hc hsh
    by_cases hlt : st.count < st.window
    · have hmin : min (st.count + 1) st.window = st.count + 1 := by omega
      rw [hmin]
      simp [MovingAverageArray.set, hd, hw, hc, hsh, hlt, xtMovingAverage]
    · have hce : st.count = st.window := by omega
      have hmin : min (st.count + 1) st.window = st.count := by omega
      rw [hmin]
      simp [MovingAverageArray.set, hd, hw, hc, hsh, hlt, xtMovingAverage,
        hce]
  · intro st new hd
    simp [MovingAverageArray.set, hd]
  · intro st d new hd hcond
    simp [MovingAverageArray.set, hd, if_neg hcond]
  · norm_num [MovingAverageArray.set, MovingAverageArray.initial,
      xtMovingAverage]

/-- Witness for C4: the update rule applied at a concrete state with
`window = 4`, `count = 2`, average `[10]`, new image `[22]`, hitting
each hypothesis; and the reset rules at concrete states. -/
theorem movingAverageArray_update_witness :
    (({ data := some [10], window := 4, count := 2 } :
        MovingAverageArray).set [22]).data = some [14]
    ∧ (({ data := none, window := 4, count := 2 } :
        MovingAverageArray).set [22]).count = 1
    ∧ (({ data := some [10], window := 1, count := 1 } :
        MovingAverageArray).set [22]).data = some [22] := by
  have h1 := movingAverageArray_update.1
    { data := some [10], window := 4, count := 2 } [10] [22]
    rfl (by decide) (by decide) rfl
  have h2 := movingAverageArray_update.2.1
    { data := none, window := 4, count := 2 } [22] rfl
  have h3 := movingAverageArray_update.2.2.1
    { data := some [10], window := 1, count := 1 } [10] [22]
    rfl (by decide)
  refine ⟨?_, h2.2, h3.1⟩
  rw [h1.1]
  norm_num

/-- A set on an accumulator whose count exceeds its window always
resets to the new image with count 1. -/
lemma MovingAverageArray.set_reset_of_count_gt (st : MovingAverageArray)
    (new : List ℚ) (h : st.window < st.count) :
    (st.set new).data = some new ∧ (st.set new).count = 1 := by
  match hd : st.data with
  | none => simp [MovingAverageArray.set, hd]
  | some d =>
    have hcond : ¬(1 < st.window ∧ st.count ≤ st.window
        ∧ new.length = d.length) :=
      fun hc => absurd hc.2.1 (Nat.not_le.mpr h)
    simp [MovingAverageArray.set, hd, if_neg hcond]

/-- C8: setting the `window` property of a `MovingAverageArray` to a
smaller positive value only assigns the window: the stored average and
the count are unchanged at the moment of the change; only a later
image set (here: whenever the shrink left `count > window`) resets the
average to the new image with count 1. -/
theorem movingAverageArray_window_shrink :
    ∀ (st : MovingAverageArray) (v : ℤ), 0 < v → v.toNat < st.window →
    ∃ st', st.setWindow v = .ok st'
      ∧ st'.data = st.data ∧ st'.count = st.count ∧ st'.window = v.toNat
      ∧ ∀ new : List ℚ, st'.window < st'.count →
          (st'.set new).data = some new ∧ (st'.set new).count = 1 := by
  intro st v hv hlt
  refine ⟨{ st with window := v.toNat }, ?_, rfl, rfl, rfl, ?_⟩
  · rw [MovingAverageArray.setWindow, if_neg (by omega)]
  · intro new hcnt
    exact MovingAverageArray.set_reset_of_count_gt _ new hcnt

/-- Witness for C8: shrinking the window from 3 to 1 on a state with
count 2 keeps the data `[5]` and count 2; a later set of `[9]` resets
to `[9]` with count 1. -/
theorem movingAverageArray_window_shrink_witness :
    ∃ st', ({ data := some [5], window := 3, count := 2 } :
        MovingAverageArray).setWindow 1 = .ok st'
      ∧ st'.data = some [5] ∧ st'.count = 2 ∧ st'.window = (1 : ℤ).toNat
      ∧ ∀ new : List ℚ, st'.window < st'.count →
          (st'.set new).data = some new ∧ (st'.set new).count = 1 :=
  movingAverageArray_window_shrink
    { data := some [5], window := 3, count := 2 } 1 (by decide) (by decide)

/-- Clipping `-inf` to a well-ordered non-NaN range yields the lower
bound. -/
lemma PixelVal.clip_negInf_eq_lower (l u : PixelVal) (h : PixelVal.ple l u) :
    PixelVal.clip .negInf l u = l := by
  cases l <;> cases u <;>
    simp_all [PixelVal.ple, PixelVal.clip, PixelVal.pmax, PixelVal.pmin,
      min_eq_left]

/-- C6: Masked mean NaN policy.  The masked mean is the mean image with
every NaN pixel replaced by `-inf` and then clipped to
`(lower, upper)`; consequently (for an ordered, non-NaN mask range)
every NaN pixel of the mean ends up equal to the lower mask bound; in
particular `mean=[[NaN,0],[1,1]]` with mask `(0, +inf)` yields
`[[0,0],[1,1]]`. -/
theorem maskedMean_nan_policy :
    (∀ (mean : List (List PixelVal)) (lower upper : PixelVal),
      maskedMeanImage mean lower upper
        = (mean.map (fun row => row.map
            (fun p => if p = .nan then .negInf else p))).map
          (fun row => row.map (fun p => PixelVal.clip p lower upper)))
  ∧ (∀ (mean : List (List PixelVal)) (lower upper : PixelVal)
        (i j : ℕ) (row : List PixelVal),
      PixelVal.ple lower upper →
      mean[i]? = some row → row[j]? = some .nan →
      ∃ row', (maskedMeanImage mean lower upper)[i]? = some row'
        ∧ row'[j]? = some lower)
  ∧ maskedMeanImage
      [[.nan, .finite 0], [.finite 1, .finite 1]] (.finite 0) .posInf
      = [[.finite 0, .finite 0], [.finite 1, .finite 1]] := by
  refine ⟨?_, ?_, ?_⟩
  · intro mean lower upper
    simp [maskedMeanImage]
  · intro mean lower upper i j row hle hrow hnan
    refine ⟨row.map (fun p =>
      PixelVal.clip (if p = .nan then .negInf else p) lower upper), ?_, ?_⟩
    · simp [maskedMeanImage, List.getElem?_map, hrow]
    · simp [List.getElem?_map, hnan, PixelVal.clip_negInf_eq_lower _ _ hle]
  · decide

/-- Witness for C6: the NaN-to-lower-bound clause applied at the
concrete image `[[NaN]]` with mask `(-3, 7)`. -/
theorem maskedMean_nan_policy_witness :
    ∃ row', (maskedMeanImage [[PixelVal.nan]]
        (.finite (-3)) (.finite 7))[0]? = some row'
      ∧ row'[0]? = some (.finite (-3)) :=
  maskedMean_nan_policy.2.1 [[PixelVal.nan]] (.finite (-3)) (.finite 7)
    0 0 [PixelVal.nan] (by decide) rfl rfl

/-- C7 counterexample: the claim says the moving average "resets to
window=1" on a shape change.  At the concrete state with
`maWindow = 5`, accumulated on-average `[0]` and count 3, pushing a
pair of different shape `[1, 2]` leaves the window at 5 (the window is
never reassigned by `__set__`); it does not become 1. -/
theorem pumpProbe_shape_reset_counterexample :
    (ppShapeExample.set none [1, 2] [1, 2]).maWindow = 5
    ∧ ¬(ppShapeExample.set none [1, 2] [1, 2]).maWindow = 1 := by
  constructor
  · decide
  · decide

/-- C7 (amended): whenever the emitted (on, off) pair's shape differs
from the shape of the currently accumulated on-average, the moving
average resets: the accumulated on/off averages are discarded and
accumulation restarts from the newly emitted pair (count 1 when the
window exceeds 1, else the count stays 0); the window itself is left
unchanged. -/
theorem pumpProbe_shape_reset (st : PumpProbeMovingAverage)
    (x : Option (List ℚ)) (onData offData d : List ℚ)
    (hd : st.onMa = some d) (hsh : onData.length ≠ d.length) :
    st.set x onData offData
      = { x := x, onMa := some onData, offMa := some offData,
          maWindow := st.maWindow,
          maCount := if 1 < st.maWindow then 1 else 0 } := by
  simp [PumpProbeMovingAverage.set, hd, hsh]

/-- Witness for C7 (amended): the reset at the counterexample's state;
the restarted accumulator holds the new pair with count 1 and the
unchanged window 5. -/
theorem pumpProbe_shape_reset_witness :
    ppShapeExample.set none [1, 2] [1, 2]
      = { x := none, onMa := some [1, 2], offMa := some [1, 2],
          maWindow := ppShapeExample.maWindow,
          maCount := if 1 < ppShapeExample.maWindow then 1 else 0 } :=
  pumpProbe_shape_reset ppShapeExample none [1, 2] [1, 2] [0] rfl
    (by decide)

/-- C9: Correlation registration contract.  `add_correlation` raises
for every index `≤ 0`; with non-empty `device_id` and `ppt` it installs
an `AccumulatedPairData` (with the given resolution) when
`resolution > 0` and a plain `PairData` when `resolution == 0`; and
constructing an `AccumulatedPairData` with `resolution ≤ 0` is an
input error. -/
theorem addCorrelation_contract :
    (∀ (idx : ℤ) (d p : String) (r : ℚ), idx ≤ 0 →
      addCorrelation idx d p r
        = .error "Correlation index must start from 1!")
  ∧ (∀ (idx : ℤ) (d p : String) (r : ℚ),
      0 < idx → d ≠ "" → p ≠ "" → 0 < r →
      ∃ st, AccumulatedPairData.init r = .ok st ∧ st.resolution = r
        ∧ addCorrelation idx d p r = .ok (.installed (.accumulated d p st)))
  ∧ (∀ (idx : ℤ) (d p : String),
      0 < idx → d ≠ "" → p ≠ "" →
      addCorrelation idx d p 0 = .ok (.installed (.pair d p)))
  ∧ (∀ r : ℚ, r ≤ 0 →
      AccumulatedPairData.init r = .error "'resolution must be positive!") := by
  refine ⟨?_, ?_, ?_, ?_⟩
  · intro idx d p r hidx
    simp [addCorrelation, hidx]
  · intro idx d p r hidx hd hp hr
    refine ⟨{
      resolution := r, x := [], yCount := [], yAvg := [],
      yMin := [], yMax := [], yStd := [] }, ?_, rfl, ?_⟩
    · rw [AccumulatedPairData.init, if_neg (by exact not_le.mpr hr)]
    · rw [addCorrelation, if_neg (by omega), if_pos ⟨hd, hp⟩,
        if_pos (by exact ne_of_gt hr),
        AccumulatedPairData.init, if_neg (by exact not_le.mpr hr)]
      rfl
  · intro idx d p hidx hd hp
    rw [addCorrelation, if_neg (by omega), if_pos ⟨hd, hp⟩,
      if_neg (by simp)]
  · intro r hr
    rw [AccumulatedPairData.init, if_pos hr]

/-- Witness for C9: the three branches of `add_correlation` at
concrete arguments, and the constructor error for resolution `-1`. -/
theorem addCorrelation_contract_witness :
    (addCorrelation 0 "dev" "ppt" 2
        = .error "Correlation index must start from 1!")
  ∧ (∃ st, AccumulatedPairData.init 2 = .ok st ∧ st.resolution = 2
      ∧ addCorrelation 1 "dev" "ppt" 2
          = .ok (.installed (.accumulated "dev" "ppt" st)))
  ∧ (addCorrelation 1 "dev" "ppt" 0 = .ok (.installed (.pair "dev" "ppt")))
  ∧ (AccumulatedPairData.init (-1)
      = .error "'resolution must be positive!") :=
  ⟨addCorrelation_contract.1 0 "dev" "ppt" 2 (by decide),
   addCorrelation_contract.2.1 1 "dev" "ppt" 2 (by decide)
     (by decide) (by decide) (by norm_num),
   addCorrelation_contract.2.2.1 1 "dev" "ppt" (by decide)
     (by decide) (by decide),
   addCorrelation_contract.2.2.2 (-1) (by norm_num)⟩

namespace AccumulatedPairData

/-! Branch lemmas for `AccumulatedPairData.push`. -/

lemma mergeLast_x_length (sq : ℚ → ℚ) (st : AccumulatedPairData)
    (thisX thisY : ℚ) (h : st.x ≠ []) :
    (st.mergeLast sq thisX thisY).x.length = st.x.length := by
  have : 0 < st.x.length := List.length_pos.mpr h
  simp only [mergeLast, List.length_append, List.length_dropLast,
    List.length_cons, List.length_nil]
  omega

/-- On an empty buffer, a push just appends the first bin. -/
lemma push_empty (sq : ℚ → ℚ) (st : AccumulatedPairData)
    (thisX thisY : ℚ) (h : st.x = []) :
    st.push sq thisX thisY = st.appendBin thisX thisY := by
  have hlast : st.x.getLast? = none := by rw [h]; rfl
  have hlen : (st.appendBin thisX thisY).x.length = 1 := by
    simp [appendBin, h]
  simp only [push, hlast]
  rw [if_neg]
  rw [hlen]
  decide

/-- A push within resolution of the trailing bin merges (no eviction
since the length is unchanged). -/
lemma push_merge (sq : ℚ → ℚ) (st : AccumulatedPairData)
    (thisX thisY lastX : ℚ) (hlast : st.x.getLast? = some lastX)
    (hcond : |thisX - lastX| - st.resolution < epsilon)
    (hlen : st.x.length ≤ maxLength) :
    st.push sq thisX thisY = st.mergeLast sq thisX thisY := by
  have hne : st.x ≠ [] := by
    intro h
    rw [h] at hlast
    exact Option.noConfusion hlast
  simp only [push, hlast, if_pos hcond]
  rw [if_neg]
  rw [mergeLast_x_length sq st thisX thisY hne]
  omega

/-- A push at a new location while the trailing bin is provisional
(`count < min_count`) discards that bin and opens the new one (no
eviction since the length is unchanged). -/
lemma push_new_location_drop (sq : ℚ → ℚ) (st : AccumulatedPairData)
    (thisX thisY lastX : ℚ) (hlast : st.x.getLast? = some lastX)
    (hcond : ¬(|thisX - lastX| - st.resolution < epsilon))
    (hcnt : st.yCount.getLast?.getD 0 < minCount)
    (hlen : st.x.length ≤ maxLength) :
    st.push sq thisX thisY = st.dropLastBin.appendBin thisX thisY := by
  have hne : st.x ≠ [] := by
    intro h
    rw [h] at hlast
    exact Option.noConfusion hlast
  have : 0 < st.x.length := List.length_pos.mpr hne
  simp only [push, hlast, if_neg hcond, if_pos hcnt]
  rw [if_neg]
  simp only [appendBin, dropLastBin, List.length_append,
    List.length_dropLast, List.length_cons, List.length_nil]
  omega

/-- A push at a new location while the trailing bin is committed
(`count ≥ min_count`) appends a new bin, evicting the oldest bin when
the length would exceed `MAX_LENGTH`. -/
lemma push_new_location_keep (sq : ℚ → ℚ) (st : AccumulatedPairData)
    (thisX thisY lastX : ℚ) (hlast : st.x.getLast? = some lastX)
    (hcond : ¬(|thisX - lastX| - st.resolution < epsilon))
    (hcnt : ¬st.yCount.getLast?.getD 0 < minCount) :
    st.push sq thisX thisY
      = if maxLength ≤ st.x.length
        then (st.appendBin thisX thisY).deleteOldest
        else st.appendBin thisX thisY := by
  have hxlen : (st.appendBin thisX thisY).x.length = st.x.length + 1 := by
    simp [appendBin]
  simp only [push, hlast, if_neg hcond, if_neg hcnt]
  by_cases h : maxLength ≤ st.x.length
  · rw [if_pos h, if_pos (by rw [hxlen]; omega)]
  · rw [if_neg h, if_neg (by rw [hxlen]; omega)]

end AccumulatedPairData

/-- C2: Accumulated History Buffer merging.  For every push `(x, y)`
with `|x − last_bin.x| − resolution < 1e-9` (and the maintained length
bound), the pair is merged into the trailing bin by the Welford
update: the count becomes `c+1`, the average `a + (y − a)/(c+1)`, the
variance accumulator `s + (y − a)·(y − avg_new)`, the reported min/max
`avg_new ∓ 0.5·sqrt(std_new/(c+1))`, and the bin's x moves to
`lastX + (x − lastX)/(c+1)` — for any interpretation `sq` of the
floating-point square root.  In particular pushing `(1, 10)` then
`(2, 20)` with resolution 5 yields a single bin with `count=2`,
`x=3/2`, `avg=15`. -/
theorem accumulatedPairData_merge :
    (∀ (sq : ℚ → ℚ) (st : AccumulatedPairData)
        (thisX thisY lastX : ℚ) (c : ℕ) (a s : ℚ),
      st.x.getLast? = some lastX →
      |thisX - lastX| - st.resolution < AccumulatedPairData.epsilon →
      st.x.length ≤ AccumulatedPairData.maxLength →
      st.yCount.getLast? = some c → st.yAvg.getLast? = some a →
      st.yStd.getLast? = some s →
      (st.push sq thisX thisY).yCount = st.yCount.dropLast ++ [c + 1]
      ∧ (st.push sq thisX thisY).yAvg
          = st.yAvg.dropLast ++ [a + (thisY - a) / ((c : ℚ) + 1)]
      ∧ (st.push sq thisX thisY).yStd
          = st.yStd.dropLast
            ++ [s + (thisY - a)
                  * (thisY - (a + (thisY - a) / ((c : ℚ) + 1)))]
      ∧ (st.push sq thisX thisY).yMin
          = st.yMin.dropLast
            ++ [a + (thisY - a) / ((c : ℚ) + 1)
                - (1/2) * sq ((s + (thisY - a)
                    * (thisY - (a + (thisY - a) / ((c : ℚ) + 1))))
                  / ((c : ℚ) + 1))]
      ∧ (st.push sq thisX thisY).yMax
          = st.yMax.dropLast
            ++ [a + (thisY - a) / ((c : ℚ) + 1)
                + (1/2) * sq ((s + (thisY - a)
                    * (thisY - (a + (thisY - a) / ((c : ℚ) + 1))))
                  / ((c : ℚ) + 1))]
      ∧ (st.push sq thisX thisY).x
          = st.x.dropLast ++ [lastX + (thisX - lastX) / ((c : ℚ) + 1)])
  ∧ (∀ sq : ℚ → ℚ,
      AccumulatedPairData.init 5 = .ok accExample5
      ∧ ((accExample5.push sq 1 10).push sq 2 20).yCount = [2]
      ∧ ((accExample5.push sq 1 10).push sq 2 20).x = [3/2]
      ∧ ((accExample5.push sq 1 10).push sq 2 20).yAvg = [15]) := by
  constructor
  · intro sq st thisX thisY lastX c a s hlast hcond hlen hc ha hs
    rw [AccumulatedPairData.push_merge sq st thisX thisY lastX hlast
      hcond hlen]
    have hcast : ((c + 1 : ℕ) : ℚ) = (c : ℚ) + 1 := by push_cast; rfl
    simp [AccumulatedPairData.mergeLast, hlast, hc, ha, hs, hcast]
  · intro sq
    refine ⟨rfl, ?_, ?_, ?_⟩ <;>
    · rw [AccumulatedPairData.push_empty sq accExample5 1 10 rfl]
      rw [AccumulatedPairData.push_merge sq _ 2 20 1
          (by simp [accExample5, AccumulatedPairData.appendBin])
          (by norm_num [AccumulatedPairData.epsilon, accExample5,
            AccumulatedPairData.appendBin])
          (by norm_num [AccumulatedPairData.maxLength, accExample5,
            AccumulatedPairData.appendBin])]
      norm_num [AccumulatedPairData.mergeLast, accExample5,
        AccumulatedPairData.appendBin]

/-- Witness for C2: the merge rule applied to the concrete one-bin
buffer `accOneBin` receiving the pair (11, 8), with `sq = id`. -/
theorem accumulatedPairData_merge_witness :
    (accOneBin.push id 11 8).yCount = [2]
    ∧ (accOneBin.push id 11 8).yAvg = [6]
    ∧ (accOneBin.push id 11 8).x = [21/2] := by
  have h := accumulatedPairData_merge.1 id accOneBin
    11 8 10 1 4 0 rfl
    (by norm_num [AccumulatedPairData.epsilon, accOneBin])
    (by norm_num [AccumulatedPairData.maxLength, accOneBin]) rfl rfl rfl
  refine ⟨?_, ?_, ?_⟩
  · rw [h.1]; norm_num [accOneBin]
  · rw [h.2.1]; norm_num [accOneBin]
  · rw [h.2.2.2.2.2]; norm_num [accOneBin]

/-- C5: provisional trailing bins.  A snapshot (`__get__`) never
returns the trailing bin while its count is below `min_count = 2`: it
returns exactly the series with the last entry dropped.  And a push
whose x is not within resolution of the trailing bin's running x, while
that bin has `count < 2`, deletes the provisional bin from every series
before the new bin is opened — every x surviving in the buffer is
either a committed bin's x or the new bin's x, so the deleted bin
appears in no later snapshot. -/
theorem accumulatedPairData_provisional :
    (∀ (st : AccumulatedPairData) (c : ℕ),
      st.yCount.getLast? = some c → c < AccumulatedPairData.minCount →
      st.get = { x := st.x.dropLast, count := st.yCount.dropLast,
                 avg := st.yAvg.dropLast, min := st.yMin.dropLast,
                 max := st.yMax.dropLast })
  ∧ (∀ (sq : ℚ → ℚ) (st : AccumulatedPairData)
        (thisX thisY lastX : ℚ) (c : ℕ),
      st.x.getLast? = some lastX →
      ¬(|thisX - lastX| - st.resolution < AccumulatedPairData.epsilon) →
      st.yCount.getLast? = some c → c < AccumulatedPairData.minCount →
      st.x.length ≤ AccumulatedPairData.maxLength →
      st.push sq thisX thisY = st.dropLastBin.appendBin thisX thisY
      ∧ (st.push sq thisX thisY).x = st.x.dropLast ++ [thisX]
      ∧ ∀ v ∈ (st.push sq thisX thisY).x,
          v ∈ st.x.dropLast ∨ v = thisX) := by
  constructor
  · intro st c hc hlt
    have hne : st.yCount ≠ [] := by
      intro h
      rw [h] at hc
      exact Option.noConfusion hc
    rw [AccumulatedPairData.get,
      if_pos ⟨hne, by rw [hc]; exact hlt⟩]
  · intro sq st thisX thisY lastX c hlast hcond hc hlt hlen
    have hpush := AccumulatedPairData.push_new_location_drop sq st
      thisX thisY lastX hlast hcond (by rw [hc]; exact hlt) hlen
    refine ⟨hpush, ?_, ?_⟩
    · rw [hpush]
      simp [AccumulatedPairData.appendBin, AccumulatedPairData.dropLastBin]
    · intro v hv
      rw [hpush] at hv
      simp only [AccumulatedPairData.appendBin,
        AccumulatedPairData.dropLastBin, List.mem_append,
        List.mem_singleton] at hv
      exact hv

/-- Witness for C5: the one-bin buffer `accOneBin` (trailing count 1)
yields an empty snapshot, and a far-away push (x=20, outside
resolution 2 of bin x=10) deletes the provisional bin and opens the
new one. -/
theorem accumulatedPairData_provisional_witness :
    accOneBin.get
      = { x := [], count := [], avg := [], min := [], max := [] }
    ∧ (accOneBin.push id 20 7).x = accOneBin.x.dropLast ++ [20] := by
  have h1 := accumulatedPairData_provisional.1 accOneBin 1 rfl (by decide)
  have h2 := accumulatedPairData_provisional.2 id accOneBin 20 7 10 1 rfl
    (by norm_num [AccumulatedPairData.epsilon, accOneBin]) rfl (by decide)
    (by norm_num [AccumulatedPairData.maxLength, accOneBin])
  exact ⟨by rw [h1]; simp [accOneBin], h2.2.1⟩

lemma tail_dropLast_eq {α : Type} (l : List α) :
    l.tail.dropLast = l.dropLast.tail := by
  cases l with
  | nil => rfl
  | cons a rest =>
    cases rest with
    | nil => rfl
    | cons b r => rfl

/-- In a state satisfying the invariant whose trailing bin is
committed, every bin's count is at least `min_count`. -/
lemma AccInv.all_counts (st : AccumulatedPairData) (hinv : AccInv st)
    (hne : st.yCount ≠ [])
    (hcnt : ¬st.yCount.getLast?.getD 0 < AccumulatedPairData.minCount) :
    ∀ c ∈ st.yCount, AccumulatedPairData.minCount ≤ c := by
  intro c hc
  have hgl : st.yCount.getLast? = some (st.yCount.getLast hne) :=
    List.getLast?_eq_getLast_of_ne_nil hne
  rw [← List.dropLast_append_getLast? _ hgl] at hc
  rcases List.mem_append.mp hc with h | h
  · exact hinv.2.2.2.2.2.2 c h
  · rw [List.mem_singleton.mp h]
    rw [hgl] at hcnt
    exact Nat.not_lt.mp hcnt

/-- C10: Accumulated History Buffer internal invariant.  The invariant
`AccInv` — the six internal series have equal lengths, the length is at
most `MAX_LENGTH`, and every bin other than the last has
`count ≥ min_count = 2` — is preserved by every push (including its
internal overflow eviction), by an eviction of the oldest bin, and is
(re-)established by `clear`. -/
theorem accumulatedPairData_invariant :
    (∀ (sq : ℚ → ℚ) (st : AccumulatedPairData) (thisX thisY : ℚ),
      AccInv st → AccInv (st.push sq thisX thisY))
  ∧ (∀ st : AccumulatedPairData, AccInv st → AccInv st.deleteOldest)
  ∧ (∀ st : AccumulatedPairData, AccInv st.clear) := by
  refine ⟨?_, ?_, ?_⟩
  · intro sq st thisX thisY hinv
    obtain ⟨h1, h2, h3, h4, h5, h6, h7⟩ := hinv
    match hlast : st.x.getLast? with
    | none =>
      have hx : st.x = [] := List.getLast?_eq_none_iff.mp hlast
      rw [AccumulatedPairData.push_empty sq st thisX thisY hx]
      have hc : st.yCount = [] := by
        rw [← List.length_eq_zero, h1, hx]
        rfl
      refine ⟨?_, ?_, ?_, ?_, ?_, ?_, ?_⟩ <;>
        simp_all [AccumulatedPairData.appendBin,
          AccumulatedPairData.maxLength]
    | some lastX =>
      have hne : st.x ≠ [] := by
        intro h
        rw [h] at hlast
        exact Option.noConfusion hlast
      have hpos : 0 < st.x.length := List.length_pos.mpr hne
      by_cases hcond :
          |thisX - lastX| - st.resolution < AccumulatedPairData.epsilon
      · rw [AccumulatedPairData.push_merge sq st thisX thisY lastX hlast
          hcond h6]
        refine ⟨?_, ?_, ?_, ?_, ?_, ?_, ?_⟩
        · simp only [AccumulatedPairData.mergeLast, List.length_append,
            List.length_dropLast, List.length_cons, List.length_nil]
          omega
        · simp only [AccumulatedPairData.mergeLast, List.length_append,
            List.length_dropLast, List.length_cons, List.length_nil]
          omega
        · simp only [AccumulatedPairData.mergeLast, List.length_append,
            List.length_dropLast, List.length_cons, List.length_nil]
          omega
        · simp only [AccumulatedPairData.mergeLast, List.length_append,
            List.length_dropLast, List.length_cons, List.length_nil]
          omega
        · simp only [AccumulatedPairData.mergeLast, List.length_append,
            List.length_dropLast, List.length_cons, List.length_nil]
          omega
        · simp only [AccumulatedPairData.mergeLast, List.length_append,
            List.length_dropLast, List.length_cons, List.length_nil]
          omega
        · simp only [AccumulatedPairData.mergeLast, List.dropLast_concat]
          exact h7
      · by_cases hcnt : st.yCount.getLast?.getD 0
            < AccumulatedPairData.minCount
        · rw [AccumulatedPairData.push_new_location_drop sq st thisX
            thisY lastX hlast hcond hcnt h6]
          refine ⟨?_, ?_, ?_, ?_, ?_, ?_, ?_⟩
          · simp only [AccumulatedPairData.appendBin,
              AccumulatedPairData.dropLastBin, List.length_append,
              List.length_dropLast, List.length_cons, List.length_nil]
            omega
          · simp only [AccumulatedPairData.appendBin,
              AccumulatedPairData.dropLastBin, List.length_append,
              List.length_dropLast, List.length_cons, List.length_nil]
            omega
          · simp only [AccumulatedPairData.appendBin,
              AccumulatedPairData.dropLastBin, List.length_append,
              List.length_dropLast, List.length_cons, List.length_nil]
            omega
          · simp only [AccumulatedPairData.appendBin,
              AccumulatedPairData.dropLastBin, List.length_append,
              List.length_dropLast, List.length_cons, List.length_nil]
            omega
          · simp only [AccumulatedPairData.appendBin,
              AccumulatedPairData.dropLastBin, List.length_append,
              List.length_dropLast, List.length_cons, List.length_nil]
            omega
          · simp only [AccumulatedPairData.appendBin,
              AccumulatedPairData.dropLastBin, List.length_append,
              List.length_dropLast, List.length_cons, List.length_nil]
            omega
          · simp only [AccumulatedPairData.appendBin,
              AccumulatedPairData.dropLastBin, List.dropLast_concat]
            exact h7
        · have hcne : st.yCount ≠ [] := by
            intro h
            rw [h] at h1
            simp only [List.length_nil] at h1
            omega
          have hall := AccInv.all_counts st
            ⟨h1, h2, h3, h4, h5, h6, h7⟩ hcne hcnt
          rw [AccumulatedPairData.push_new_location_keep sq st thisX
            thisY lastX hlast hcond hcnt]
          by_cases hml : AccumulatedPairData.maxLength ≤ st.x.length
          · rw [if_pos hml]
            refine ⟨?_, ?_, ?_, ?_, ?_, ?_, ?_⟩
            · simp only [AccumulatedPairData.appendBin,
                AccumulatedPairData.deleteOldest, List.length_tail,
                List.length_append, List.length_cons, List.length_nil]
              omega
            · simp only [AccumulatedPairData.appendBin,
                AccumulatedPairData.deleteOldest, List.length_tail,
                List.length_append, List.length_cons, List.length_nil]
              omega
            · simp only [AccumulatedPairData.appendBin,
                AccumulatedPairData.deleteOldest, List.length_tail,
                List.length_append, List.length_cons, List.length_nil]
              omega
            · simp only [AccumulatedPairData.appendBin,
                AccumulatedPairData.deleteOldest, List.length_tail,
                List.length_append, List.length_cons, List.length_nil]
              omega
            · simp only [AccumulatedPairData.appendBin,
                AccumulatedPairData.deleteOldest, List.length_tail,
                List.length_append, List.length_cons, List.length_nil]
              omega
            · simp only [AccumulatedPairData.appendBin,
                AccumulatedPairData.deleteOldest, List.length_tail,
                List.length_append, List.length_cons, List.length_nil]
              omega
            · simp only [AccumulatedPairData.appendBin,
                AccumulatedPairData.deleteOldest]
              intro c hc
              rw [tail_dropLast_eq, List.dropLast_concat] at hc
              exact hall c (List.mem_of_mem_tail hc)
          · rw [if_neg hml]
            refine ⟨?_, ?_, ?_, ?_, ?_, ?_, ?_⟩
            · simp only [AccumulatedPairData.appendBin,
                List.length_append, List.length_cons, List.length_nil]
              omega
            · simp only [AccumulatedPairData.appendBin,
                List.length_append, List.length_cons, List.length_nil]
              omega
            · simp only [AccumulatedPairData.appendBin,
                List.length_append, List.length_cons, List.length_nil]
              omega
            · simp only [AccumulatedPairData.appendBin,
                List.length_append, List.length_cons, List.length_nil]
              omega
            · simp only [AccumulatedPairData.appendBin,
                List.length_append, List.length_cons, List.length_nil]
              omega
            · simp only [AccumulatedPairData.appendBin,
                List.length_append, List.length_cons, List.length_nil]
              omega
            · simp only [AccumulatedPairData.appendBin,
                List.dropLast_concat]
              exact hall
  · intro st hinv
    obtain ⟨h1, h2, h3, h4, h5, h6, h7⟩ := hinv
    refine ⟨?_, ?_, ?_, ?_, ?_, ?_, ?_⟩
    · simp only [AccumulatedPairData.deleteOldest, List.length_tail]
      omega
    · simp only [AccumulatedPairData.deleteOldest, List.length_tail]
      omega
    · simp only [AccumulatedPairData.deleteOldest, List.length_tail]
      omega
    · simp only [AccumulatedPairData.deleteOldest, List.length_tail]
      omega
    · simp only [AccumulatedPairData.deleteOldest, List.length_tail]
      omega
    · simp only [AccumulatedPairData.deleteOldest, List.length_tail]
      omega
    · simp only [AccumulatedPairData.deleteOldest]
      intro c hc
      rw [tail_dropLast_eq] at hc
      exact h7 c (List.mem_of_mem_tail hc)
  · intro st
    refine ⟨rfl, rfl, rfl, rfl, rfl, ?_, ?_⟩
    · simp [AccumulatedPairData.clear, AccumulatedPairData.maxLength]
    · intro c hc
      simp [AccumulatedPairData.clear] at hc

/-- Witness for C10: the invariant holds at the concrete one-bin
buffer `accOneBin`, and the theorem transports it across a concrete
push and a concrete eviction. -/
theorem accumulatedPairData_invariant_witness :
    AccInv accOneBin ∧ AccInv (accOneBin.push id 20 7)
    ∧ AccInv accOneBin.deleteOldest := by
  have hbase : AccInv accOneBin := by
    refine ⟨rfl, rfl, rfl, rfl, rfl, ?_, ?_⟩
    · norm_num [accOneBin, AccumulatedPairData.maxLength]
    · intro c hc
      simp [accOneBin] at hc
  exact ⟨hbase, accumulatedPairData_invariant.1 id accOneBin 20 7 hbase,
    accumulatedPairData_invariant.2.1 accOneBin hbase⟩

end KaraboFAI
